import Mathlib

/-!
Verification development for the nuScenes devkit point-cloud / box module
(`python-sdk/nuscenes_utils/data_classes.py`).

Shallow embedding conventions:
* Bytes are naturals in `0..255` (`List ℕ` stands for a Python `bytes` buffer).
* Floating-point values that flow through the decoders are modelled exactly by
  `Val`: a float is either NaN, a signed infinity, or a rational (every finite
  IEEE-754 value is a rational, and the decoders only ever *read* floats, never
  do arithmetic that rounds, so this model is exact).
* Optional numeric fields whose absence Python encodes as `float('nan')`
  (label, score, velocity components of `Box`) are modelled as `Option ℚ`,
  with `none` standing for the NaN sentinel.
* Python exceptions are modelled by `Except DecodeError`.
-/

/-- A decoded numeric value: IEEE NaN, a signed infinity, or a finite value
(exact rational). -/
inductive Val where
  | nanV : Val
  | infV : Bool → Val
  | finV : ℚ → Val
deriving DecidableEq

/-- Predicate `np.isnan` on a decoded value. -/
def isnanVal : Val → Bool
  | Val.nanV => true
  | _ => false

/-- The exceptions the Python code can raise while decoding:
assertion failures with their message, `IndexError`, `ValueError` (from `int()`
and `reshape`), `KeyError` (unpacking lut), `struct.error`, and the bare
`assert end_p < len(data_binary)` bounds assertion (its own constructor so that
bounds failures are distinguishable). -/
inductive DecodeError where
  | assertError : String → DecodeError
  | indexError : DecodeError
  | valueError : DecodeError
  | keyError : DecodeError
  | structError : DecodeError
  | boundsError : DecodeError
deriving DecidableEq

instance {ε α : Type} [DecidableEq ε] [DecidableEq α] : DecidableEq (Except ε α) := fun a b =>
  match a, b with
  | Except.error x, Except.error y => decidable_of_iff (x = y) (by simp)
  | Except.error _, Except.ok _ => isFalse (by simp)
  | Except.ok _, Except.error _ => isFalse (by simp)
  | Except.ok x, Except.ok y => decidable_of_iff (x = y) (by simp)

/-- Little-endian value of a byte list (first byte least significant),
matching `struct.unpack` with native (x86, little-endian) byte order. -/
def leNat : List ℕ → ℕ
  | [] => 0
  | b :: bs => b + 256 * leNat bs

/-- Two's-complement reading of a `bits`-wide word. -/
def toSigned (bits w : ℕ) : ℤ :=
  if w < 2 ^ (bits - 1) then (w : ℤ) else (w : ℤ) - 2 ^ bits

/-- The exact rational `(-1)^sign * m * 2^e`, built directly as a normalized
`Rat` (numerator/denominator in lowest terms) so that the kernel can evaluate
it; `ℚ` arithmetic itself is irreducible and is avoided here. -/
def dyadic (sign : Bool) (m : ℕ) (e : ℤ) : ℚ :=
  if 0 ≤ e then
    let n : ℤ := (m : ℤ) * 2 ^ e.toNat
    ((if sign then -n else n : ℤ) : ℚ)
  else
    let d : ℕ := 2 ^ (-e).toNat
    let g : ℕ := Nat.gcd m d
    have hd : 0 < d := Nat.pos_pow_of_pos _ (by norm_num)
    have hg : 0 < g := Nat.gcd_pos_of_pos_right _ hd
    ⟨(if sign then -(m / g : ℕ) else (m / g : ℕ) : ℤ), d / g,
      (Nat.div_pos (Nat.le_of_dvd hd (Nat.gcd_dvd_right _ _)) hg).ne',
      by
        have h := Nat.coprime_div_gcd_div_gcd hg
        cases sign <;> simpa using h⟩

/-- Exact decode of an IEEE-754 binary word with `expBits` exponent bits and
`mantBits` mantissa bits (covers the `e`/`f`/`d` formats of `struct`):
all-ones exponent gives infinity/NaN, zero exponent is subnormal
`mant * 2^(1-bias-mantBits)`, otherwise `(2^mantBits+mant) * 2^(expo-bias-mantBits)`,
negated when the sign bit is set. -/
def decodeIEEE (expBits mantBits w : ℕ) : Val :=
  let mant := w % 2 ^ mantBits
  let expo := (w / 2 ^ mantBits) % 2 ^ expBits
  let sign := (w / 2 ^ (mantBits + expBits)) % 2
  if expo = 2 ^ expBits - 1 then
    if mant = 0 then Val.infV (sign == 1) else Val.nanV
  else if expo = 0 then
    Val.finV (dyadic (sign == 1) mant (1 - (2 ^ (expBits - 1) - 1) - mantBits))
  else
    Val.finV (dyadic (sign == 1) (2 ^ mantBits + mant)
      ((expo : ℤ) - (2 ^ (expBits - 1) - 1) - (mantBits : ℤ)))

/-- Decode of one little-endian `float32` (numpy `np.float32`, `struct` code
`f`). -/
def decodeF32 (bs : List ℕ) : Val := decodeIEEE 8 23 (leNat bs)

/-- Model of `np.fromfile(file_name, dtype=np.float32)`: split the byte buffer into
consecutive 4-byte elements; a trailing partial element (1-3 bytes) is
dropped, as numpy does. -/
def chunk4 : List ℕ → List (List ℕ)
  | a :: b :: c :: d :: rest => [a, b, c, d] :: chunk4 rest
  | _ => []

/-- Grouping used by `scan.reshape((-1, 5))` once divisibility by 5 holds. -/
def chunk5 : List Val → List (List Val)
  | a :: b :: c :: d :: e :: rest => [a, b, c, d, e] :: chunk5 rest
  | _ => []

/-- Function `PointCloud.load_numpy_bin` (data_classes.py lines 27-36), applied to the
content of the file: `scan = np.fromfile(..., dtype=np.float32)` (4-byte
elements, trailing partial element dropped), `scan.reshape((-1, 5))` (raises
`ValueError` when the element count is not a multiple of 5), keep the first 4
columns and transpose, so row `i` of the result lists field `i` of every
point. -/
def load_numpy_bin (content : List ℕ) : Except DecodeError (List (List Val)) :=
  let scan := (chunk4 content).map decodeF32
  if scan.length % 5 = 0 then
    let pts := chunk5 scan
    Except.ok ((List.range 4).map (fun i => pts.map (fun pt => pt.getD i (Val.finV 0))))
  else Except.error DecodeError.valueError

/-- Size in bytes of a `struct` format character (`struct.calcsize`), for the
characters produced by the unpacking lut of `load_pcd_bin`. -/
def fmtSize : Char → ℕ
  | 'e' => 2
  | 'f' => 4
  | 'd' => 8
  | 'b' => 1
  | 'h' => 2
  | 'i' => 4
  | 'q' => 8
  | 'B' => 1
  | 'H' => 2
  | 'I' => 4
  | 'Q' => 8
  | _ => 0

/-- Model of `struct.unpack(fmt, bs)[0]` for a single format character: errors when the
buffer size does not match the format size, decodes IEEE floats for
`e`/`f`/`d`, two's-complement integers for `b`/`h`/`i`/`q`, and unsigned
integers for `B`/`H`/`I`/`Q` (native little-endian byte order). -/
def unpackVal (c : Char) (bs : List ℕ) : Except DecodeError Val :=
  if bs.length = fmtSize c ∧ fmtSize c ≠ 0 then
    match c with
    | 'e' => Except.ok (decodeIEEE 5 10 (leNat bs))
    | 'f' => Except.ok (decodeIEEE 8 23 (leNat bs))
    | 'd' => Except.ok (decodeIEEE 11 52 (leNat bs))
    | 'b' => Except.ok (Val.finV ((toSigned (8 * bs.length) (leNat bs) : ℤ) : ℚ))
    | 'h' => Except.ok (Val.finV ((toSigned (8 * bs.length) (leNat bs) : ℤ) : ℚ))
    | 'i' => Except.ok (Val.finV ((toSigned (8 * bs.length) (leNat bs) : ℤ) : ℚ))
    | 'q' => Except.ok (Val.finV ((toSigned (8 * bs.length) (leNat bs) : ℤ) : ℚ))
    | _ => Except.ok (Val.finV ((leNat bs : ℕ) : ℚ))
  else Except.error DecodeError.structError

/-- Python `list[i]`, raising `IndexError` out of range. -/
def getIdx {α : Type} (l : List α) (i : ℕ) : Except DecodeError α :=
  match l.get? i with
  | some x => Except.ok x
  | none => Except.error DecodeError.indexError

/-- Does the character list start with the given pattern (Python
`str.startswith`)? The pattern is the second argument. -/
def startsWithCh : List Char → List Char → Bool
  | _, [] => true
  | [], _ :: _ => false
  | c :: cs, p :: ps => c == p && startsWithCh cs ps

/-- Python `str.split(' ')`: split on every single space, keeping empty
pieces between consecutive separators. -/
def splitCh : List Char → List (List Char)
  | [] => [[]]
  | c :: rest =>
    if c = ' ' then [] :: splitCh rest
    else
      match splitCh rest with
      | [] => [[c]]
      | t :: ts => (c :: t) :: ts

/-- Digits-only natural number parse (helper for `int(...)`). -/
def parseNatDigits (s : List Char) : Option ℕ :=
  if s ≠ [] ∧ s.all Char.isDigit then
    some (s.foldl (fun acc c => 10 * acc + (c.toNat - 48)) 0)
  else none

/-- Python `int(s)` on a decimal string (optional leading minus), raising
`ValueError` when unparsable. -/
def parseIntCh (s : List Char) : Except DecodeError ℤ :=
  match s with
  | '-' :: rest =>
    match parseNatDigits rest with
    | some n => Except.ok (-(n : ℤ))
    | none => Except.error DecodeError.valueError
  | _ =>
    match parseNatDigits s with
    | some n => Except.ok ((n : ℤ))
    | none => Except.error DecodeError.valueError

/-- ASCII whitespace bytes removed by Python `bytes.strip`. -/
def isWSByte (b : ℕ) : Bool :=
  b == 32 || b == 9 || b == 10 || b == 13 || b == 11 || b == 12

/-- Python `line.strip()` on a byte string. -/
def stripB (l : List ℕ) : List ℕ :=
  ((l.dropWhile isWSByte).reverse.dropWhile isWSByte).reverse

/-- Model of `line.strip().decode('utf-8')` for the ASCII header lines (decoded
bytewise; the headers this code consumes are plain ASCII). -/
def lineToMeta (l : List ℕ) : List Char :=
  (stripB l).map (fun b => Char.ofNat b)

/-- The header-reading loop of `load_pcd_bin` (lines 61-68), processed
byte-by-byte with the current line accumulated in `acc`: `for line in f`
yields newline-terminated chunks (the last one possibly unterminated); each
is stripped and decoded; the loop stops after the first line starting with
`DATA`, and the remaining bytes are the binary payload (`f.read()`). -/
def readMetaAux (acc : List ℕ) : List ℕ → List (List Char) × List ℕ
  | [] =>
    if acc.isEmpty then ([], [])
    else ([lineToMeta acc], [])
  | b :: bs =>
    if b = 10 then
      let m := lineToMeta (acc ++ [10])
      if startsWithCh m ("DATA".data) then ([m], bs)
      else
        let q := readMetaAux [] bs
        (m :: q.1, q.2)
    else readMetaAux (acc ++ [b]) bs

/-- Header lines (`meta`) and binary payload (`data_binary`) of a pcd file. -/
def readMeta (l : List ℕ) : List (List Char) × List ℕ :=
  readMetaAux [] l

/-- The (vacuous) COUNT check of `load_pcd_bin` line 81:
`assert len([c for c in counts if c != c]) == 0` — the filter keeps the
entries different from themselves. -/
def countCheck (counts : List (List Char)) : Bool :=
  (counts.filter (fun c => c != c)).length == 0

/-- The unpacking lut of `load_pcd_bin` lines 86-88: maps a TYPE token and a
parsed SIZE to a `struct` format character, raising `KeyError` for any pair
outside the table. -/
def lutLookup (t : List Char) (n : ℤ) : Except DecodeError Char :=
  if t = "F".data then
    if n = 2 then Except.ok 'e'
    else if n = 4 then Except.ok 'f'
    else if n = 8 then Except.ok 'd'
    else Except.error DecodeError.keyError
  else if t = "I".data then
    if n = 1 then Except.ok 'b'
    else if n = 2 then Except.ok 'h'
    else if n = 4 then Except.ok 'i'
    else if n = 8 then Except.ok 'q'
    else Except.error DecodeError.keyError
  else if t = "U".data then
    if n = 1 then Except.ok 'B'
    else if n = 2 then Except.ok 'H'
    else if n = 4 then Except.ok 'I'
    else if n = 8 then Except.ok 'Q'
    else Except.error DecodeError.keyError
  else Except.error DecodeError.keyError

/-- The `types_str` construction (line 89):
`''.join([unpacking_lut[t][int(s)] for t, s in zip(types, sizes)])`, failing
with `ValueError` on an unparsable size or `KeyError` on a missing lut
entry. -/
def buildTypesStr (types sizes : List (List Char)) : Except DecodeError (List Char) :=
  (types.zip sizes).mapM (fun p => do
    let n ← parseIntCh p.2
    lutLookup p.1 n)

/-- The inner field loop of `load_pcd_bin` (lines 97-103) over the remaining
field indices `ps`: look up `sizes[p]`, parse it with `int`, check
`assert end_p < len(data_binary)` (note: strict), then
`struct.unpack(types_str[p], data_binary[start_p:end_p])`, threading the
running byte offset. -/
def decodeFields (payload : List ℕ) (sizes : List (List Char)) (ts : List Char) :
    List ℕ → ℕ → Except DecodeError (List Val × ℕ)
  | [], offset => Except.ok ([], offset)
  | p :: ps, offset =>
    match getIdx sizes p with
    | Except.error e => Except.error e
    | Except.ok sStr =>
      match parseIntCh sStr with
      | Except.error e => Except.error e
      | Except.ok szI =>
        -- sizes reaching this loop have passed the lut, whose keys are positive
        let size := szI.toNat
        let end_p := offset + size
        if end_p < payload.length then
          match getIdx ts p with
          | Except.error e => Except.error e
          | Except.ok c =>
            match unpackVal c ((payload.drop offset).take size) with
            | Except.error e => Except.error e
            | Except.ok v =>
              match decodeFields payload sizes ts ps end_p with
              | Except.error e => Except.error e
              | Except.ok r => Except.ok (v :: r.1, r.2)
        else Except.error DecodeError.boundsError

/-- The outer point loop of `load_pcd_bin` (lines 95-104): decode `n` points,
each consuming one run of fields, threading the byte offset. -/
def decodePointsRec (payload : List ℕ) (sizes : List (List Char)) (ts : List Char)
    (fc : ℕ) : ℕ → ℕ → Except DecodeError (List (List Val) × ℕ)
  | 0, offset => Except.ok ([], offset)
  | n + 1, offset =>
    match decodeFields payload sizes ts (List.range fc) offset with
    | Except.error e => Except.error e
    | Except.ok pt =>
      match decodePointsRec payload sizes ts fc n pt.2 with
      | Except.error e => Except.error e
      | Except.ok rest => Except.ok (pt.1 :: rest.1, rest.2)

/-- All `width` points of the payload, in decode order (point-major). -/
def decodePoints (payload : List ℕ) (sizes : List (List Char)) (ts : List Char)
    (fc width : ℕ) : Except DecodeError (List (List Val)) :=
  match decodePointsRec payload sizes ts fc width 0 with
  | Except.error e => Except.error e
  | Except.ok r => Except.ok r.1

/-- Model of `np.array(points).transpose()` for the rectangular `width × fc` point
list: row `p` of the result lists field `p` of every point. -/
def transposeLL (fc : ℕ) (pts : List (List Val)) : List (List Val) :=
  (List.range fc).map (fun p => pts.map (fun pt => pt.getD p (Val.finV 0)))

/-- Function `PointCloud.load_pcd_bin` (lines 38-104) up to and including the point
loop: split the file into header lines and binary payload, run the header
assertions in source order (lines 70-83), build `types_str`, and decode
`WIDTH` points; returns the feature count together with the raw point-major
point list. -/
def pcdDecodeRaw (file : List ℕ) : Except DecodeError (ℕ × List (List Val)) := do
  let mp := readMeta file
  let meta := mp.1
  let data_binary := mp.2
  let m0 ← getIdx meta 0
  if startsWithCh m0 ("#".data) then pure ()
  else throw (DecodeError.assertError ("First line must be comment"))
  let m1 ← getIdx meta 1
  if startsWithCh m1 ("VERSION".data) then pure ()
  else throw (DecodeError.assertError ("Second line must be VERSION"))
  let m3 ← getIdx meta 3
  let sizes := (splitCh m3).drop 1
  let m4 ← getIdx meta 4
  let types := (splitCh m4).drop 1
  let m5 ← getIdx meta 5
  let counts := (splitCh m5).drop 1
  let m6 ← getIdx meta 6
  let wTok ← getIdx (splitCh m6) 1
  let width ← parseIntCh wTok
  let m7 ← getIdx meta 7
  let hTok ← getIdx (splitCh m7) 1
  let height ← parseIntCh hTok
  let m10 ← getIdx meta 10
  let dataTok ← getIdx (splitCh m10) 1
  let feature_count := types.length
  if 0 < width then pure () else throw (DecodeError.assertError ("width"))
  if countCheck counts then pure ()
  else throw (DecodeError.assertError ("Error: COUNT not supported!"))
  if height = 1 then pure ()
  else throw (DecodeError.assertError ("Error: height != 0 not supported!"))
  if dataTok = ("binary".data) then pure ()
  else throw (DecodeError.assertError ("data"))
  let ts ← buildTypesStr types sizes
  let pts ← decodePoints data_binary sizes ts feature_count width.toNat
  pure (feature_count, pts)

/-- Function `PointCloud.load_pcd_bin` (lines 38-114): raw decode, then the
empty-cloud sentinel (lines 106-109: any NaN in the first point returns a
`feature_count × 0` matrix of `np.zeros`), else the transposed
`feature_count × width` matrix (lines 111-114). -/
def load_pcd_bin (content : List ℕ) : Except DecodeError (List (List Val)) :=
  match pcdDecodeRaw content with
  | Except.error e => Except.error e
  | Except.ok r =>
    match getIdx r.2 0 with
    | Except.error e => Except.error e
    | Except.ok p0 =>
      if p0.any isnanVal then Except.ok (List.replicate r.1 ([] : List Val))
      else Except.ok (transposeLL r.1 r.2)

/-- Python `str.endswith` (suffix test), via `startsWithCh` on the
reversals. -/
def endsWithS (s suf : String) : Bool :=
  startsWithCh s.data.reverse suf.data.reverse

/-- The point-cloud value object: a dense matrix stored as a list of rows. -/
structure PointCloud where
  points : List (List Val)
deriving DecidableEq

/-- Constructor `PointCloud.__init__` (lines 19-25): asserts the matrix has exactly 4
rows (`points.shape[0] == 4`). -/
def PointCloud.mkE (points : List (List Val)) : Except DecodeError PointCloud :=
  if points.length = 4 then Except.ok ⟨points⟩
  else Except.error (DecodeError.assertError ("Error: Pointcloud points must have format: 4 x n"))

/-- Function `PointCloud.from_file` (lines 116-130), applied to the file name and the
file content: dispatch on the extension (`.bin` to the flat decoder, `.pcd`
to the header decoder, otherwise `ValueError`), then `cls(points)`. -/
def from_file (file_name : String) (content : List ℕ) : Except DecodeError PointCloud :=
  if endsWithS file_name (".bin") then
    match load_numpy_bin content with
    | Except.error e => Except.error e
    | Except.ok points => PointCloud.mkE points
  else if endsWithS file_name (".pcd") then
    match load_pcd_bin content with
    | Except.error e => Except.error e
    | Except.ok points => PointCloud.mkE points
  else Except.error DecodeError.valueError

/-- Elementwise `np.abs(v) < radius` on one decoded value: false for NaN
(every comparison with NaN is false) and for infinities (`|±inf| = inf`). -/
def absLtVal (v : Val) (r : ℚ) : Bool :=
  match v with
  | Val.finV q => decide (|q| < r)
  | _ => false

/-- numpy boolean-mask column selection `row[mask]` along one row. -/
def maskSelect (mask : List Bool) (xs : List Val) : List Val :=
  (xs.zip mask).filterMap (fun p => if p.2 then some p.1 else none)

/-- Method `PointCloud.remove_close` (lines 147-156) on the points matrix:
`x_filt = abs(points[0,:]) < radius`, `y_filt = abs(points[1,:]) < radius`,
`not_close = not (x_filt and y_filt)`, keep the columns where `not_close`
holds, in every row. -/
def removeCloseM (radius : ℚ) (pts : List (List Val)) : List (List Val) :=
  let x_filt := (pts.getD 0 []).map (fun v => absLtVal v radius)
  let y_filt := (pts.getD 1 []).map (fun v => absLtVal v radius)
  let not_close := List.zipWith (fun a b => !(a && b)) x_filt y_filt
  pts.map (fun row => maskSelect not_close row)

/-- Wrapper for `PointCloud.remove_close` as a method on the value object (the Python
method mutates `self.points`; here the updated object is returned). -/
def PointCloud.remove_close (pc : PointCloud) (radius : ℚ) : PointCloud :=
  ⟨removeCloseM radius pc.points⟩

/-- The `pyquaternion.Quaternion` orientation (an external library object),
abstracted by the two views this module reads: its four elements
(`orientation.elements`, compared by `__eq__`) and its derived rotation
matrix (`orientation.rotation_matrix`, a 3×3 row-major matrix used by
`corners` and `rotate`). -/
structure QuatM where
  elements : List ℚ
  rotMat : List (List ℚ)
deriving DecidableEq

/-- Class `Box` (lines 221-247): `center` and `size` are asserted NaN-free at
construction (lines 235-236), hence plain rationals; `label`, `score` and
each velocity component are NaN-sentinelled optionals (`none` is the NaN
sentinel, line 224-225 defaults); `wlh` stores (width, length, height). -/
structure Box where
  center : List ℚ
  wlh : List ℚ
  orientation : QuatM
  label : Option ℚ
  score : Option ℚ
  velocity : List (Option ℚ)
  name : Option String
deriving DecidableEq

/-- Decision procedure for the `np.allclose` scalar test
`|a - b| <= atol + rtol * |b|` with numpy defaults `rtol = 1e-5`,
`atol = 1e-8`, written with integer arithmetic on the reduced fractions so
that the kernel can evaluate it; `closeQ_iff` states the equivalence. -/
def closeQ (a b : ℚ) : Bool :=
  decide (|a.num * (b.den : ℤ) - b.num * (a.den : ℤ)| * 10 ^ 13 ≤
    ((10 ^ 5 : ℤ) * (b.den : ℤ) + 10 ^ 8 * |b.num|) * (a.den : ℤ))

/-- Model of `np.allclose` on same-length vectors of non-NaN floats. -/
def allcloseL (xs ys : List ℚ) : Bool :=
  xs.length == ys.length && (List.zipWith closeQ xs ys).all (fun p => p)

/-- Model of `np.allclose` on the velocity vectors, whose entries may be the NaN
sentinel: any NaN present makes the comparison false. -/
def allcloseO (xs ys : List (Option ℚ)) : Bool :=
  xs.length == ys.length &&
  (List.zipWith (fun x y =>
    match x, y with
    | some a, some b => closeQ a b
    | _, _ => false) xs ys).all (fun p => p)

/-- The per-field comparison `(x == y) or (isnan(x) and isnan(y))` used for
label and score in `Box.__eq__` (Python `==` is false whenever either side
is NaN, exact equality otherwise). -/
def eqOrBothNaN (x y : Option ℚ) : Bool :=
  (match x, y with
   | some a, some b => a == b
   | _, _ => false) ||
  (x.isNone && y.isNone)

/-- Method `Box.__eq__` (lines 249-258): allclose on center, wlh and the
orientation elements; equal-or-both-NaN on label and score; and for the
velocity, allclose OR all three components NaN on both sides. `name` is not
compared. -/
def boxEq (a b : Box) : Bool :=
  let center := allcloseL a.center b.center
  let wlh := allcloseL a.wlh b.wlh
  let orientation := allcloseL a.orientation.elements b.orientation.elements
  let label := eqOrBothNaN a.label b.label
  let score := eqOrBothNaN a.score b.score
  let vel := allcloseO a.velocity b.velocity ||
    (a.velocity.all Option.isNone && b.velocity.all Option.isNone)
  center && wlh && orientation && label && score && vel

/-- The pre-rotation corner matrix built inside `Box.corners` (lines
301-307): `w, l, h = self.wlh * wlh_factor`, then the three sign-patterned
rows `x_corners = l/2 * [1,1,1,1,-1,-1,-1,-1]`,
`y_corners = w/2 * [1,-1,-1,1,1,-1,-1,1]`,
`z_corners = h/2 * [1,1,-1,-1,1,1,-1,-1]`, stacked 3×8 by `np.vstack`. -/
def Box.cornersPre (b : Box) (wlh_factor : ℚ) : List (List ℚ) :=
  let w := b.wlh.getD 0 0 * wlh_factor
  let l := b.wlh.getD 1 0 * wlh_factor
  let h := b.wlh.getD 2 0 * wlh_factor
  [([1, 1, 1, 1, -1, -1, -1, -1] : List ℚ).map (fun s => l / 2 * s),
   ([1, -1, -1, 1, 1, -1, -1, 1] : List ℚ).map (fun s => w / 2 * s),
   ([1, 1, -1, -1, 1, 1, -1, -1] : List ℚ).map (fun s => h / 2 * s)]

/-- Method `Box.corners` (lines 294-318): the pre-rotation corners, then
`np.dot(self.orientation.rotation_matrix, corners)` (each entry the 3-term
row-by-column product), then add the center component to each row
(lines 313-316). -/
def Box.corners (b : Box) (wlh_factor : ℚ) : List (List ℚ) :=
  let pre := b.cornersPre wlh_factor
  let R := b.orientation.rotMat
  let rotated := (List.range 3).map (fun r =>
    (List.range 8).map (fun i =>
      (R.getD r []).getD 0 0 * ((pre.getD 0 []).getD i 0) +
      (R.getD r []).getD 1 0 * ((pre.getD 1 []).getD i 0) +
      (R.getD r []).getD 2 0 * ((pre.getD 2 []).getD i 0)))
  (List.range 3).map (fun r =>
    ((rotated.getD r []).map (fun v => v + b.center.getD r 0)))

/-- Byte encoding of an ASCII string (for building concrete test files). -/
def strBytes (s : String) : List ℕ :=
  s.data.map Char.toNat

def pcdHeaderF4 : String :=
  "# .PCD v0.7\nVERSION 0.7\nFIELDS x\nSIZE 4\nTYPE F\nCOUNT 1\nWIDTH 1\nHEIGHT 1\nVIEWPOINT 0 0 0 1 0 0 0\nPOINTS 1\nDATA binary\n"

def boxAbsVel : Box :=
  ⟨[0, 0, 0], [1, 1, 1], ⟨[1, 0, 0, 0], [[1,0,0],[0,1,0],[0,0,1]]⟩,
    none, none, [none, none, none], none⟩

def boxMixedVel : Box :=
  ⟨[0, 0, 0], [1, 1, 1], ⟨[1, 0, 0, 0], [[1,0,0],[0,1,0],[0,0,1]]⟩,
    none, none, [some 1, none, none], none⟩

/-- A header identical to `pcdHeaderF4` except its COUNT value is 2. -/
def pcdHeaderCount2 : String :=
  "# .PCD v0.7\nVERSION 0.7\nFIELDS x\nSIZE 4\nTYPE F\nCOUNT 2\nWIDTH 1\nHEIGHT 1\nVIEWPOINT 0 0 0 1 0 0 0\nPOINTS 1\nDATA binary\n"

/-- The 18-field radar header from the docstring of `load_pcd_bin`, with
WIDTH and POINTS set to 1. -/
def pcdHeaderRadar : String :=
  "# .PCD v0.7\nVERSION 0.7\nFIELDS x y z dyn_prop id rcs vx vy vx_comp vy_comp is_quality_valid ambig_state x_rms y_rms invalid_state pdh0 vx_rms vy_rms\nSIZE 4 4 4 1 2 4 4 4 4 4 1 1 1 1 1 1 1 1\nTYPE F F F I I F F F F F I I I I I I I I\nCOUNT 1 1 1 1 1 1 1 1 1 1 1 1 1 1 1 1 1 1\nWIDTH 1\nHEIGHT 1\nVIEWPOINT 0 0 0 1 0 0 0\nPOINTS 1\nDATA binary\n"

/-- A radar pcd file: the 18-field header and one all-zero point (43 payload
bytes plus the extra byte the strict bounds assert requires). -/
def radarPcdContent : List ℕ :=
  strBytes pcdHeaderRadar ++ List.replicate 44 0

/-- A box with velocity (1, NaN, NaN), used by the velocity-equality
counterexample; identical to `boxMixedVel` but kept separate. -/
def boxMixedVel5 : Box :=
  ⟨[0, 0, 0], [1, 1, 1], ⟨[1, 0, 0, 0], [[1, 0, 0], [0, 1, 0], [0, 0, 1]]⟩,
    none, none, [some 1, none, none], none⟩

/-- Lemma: `dyadic` means what it says: it equals `(-1)^sign * m * 2^e` in `ℚ`. -/
theorem dyadic_spec (sign : Bool) (m : ℕ) (e : ℤ) :
    dyadic sign m e = (if sign then (-1 : ℚ) else 1) * (m : ℚ) * (2 : ℚ) ^ e := by
  unfold dyadic
  split
  case isTrue h =>
    obtain ⟨k, rfl⟩ : ∃ k : ℕ, e = (k : ℤ) := ⟨e.toNat, by omega⟩
    have hkt : ((k : ℤ)).toNat = k := by omega
    rw [hkt, zpow_natCast]
    cases sign <;> simp
  case isFalse h =>
    obtain ⟨k, rfl⟩ : ∃ k : ℕ, e = -(k : ℤ) := ⟨(-e).toNat, by omega⟩
    have hkt : (-(-(k : ℤ))).toNat = k := by omega
    simp only [hkt]
    have hg0 : Nat.gcd m (2 ^ k) ≠ 0 :=
      (Nat.gcd_pos_of_pos_right _ (pow_pos two_pos k)).ne'
    have hgQ : ((Nat.gcd m (2 ^ k) : ℕ) : ℚ) ≠ 0 := by exact_mod_cast hg0
    have hnum : ((m / Nat.gcd m (2 ^ k) : ℕ) : ℚ)
        = (m : ℚ) / (Nat.gcd m (2 ^ k) : ℚ) := Nat.cast_div (Nat.gcd_dvd_left _ _) hgQ
    have hden : ((2 ^ k / Nat.gcd m (2 ^ k) : ℕ) : ℚ)
        = ((2 ^ k : ℕ) : ℚ) / (Nat.gcd m (2 ^ k) : ℚ) := Nat.cast_div (Nat.gcd_dvd_right _ _) hgQ
    have h2k : ((2 : ℚ)) ^ k ≠ 0 := by positivity
    have hpow : ((2 ^ k : ℕ) : ℚ) = (2 : ℚ) ^ k := by push_cast; ring
    rw [Rat.mk'_eq_divInt, Rat.divInt_eq_div, zpow_neg, zpow_natCast]
    cases sign <;>
      simp only [Bool.false_eq_true, if_false, if_true, Int.cast_natCast, Int.cast_neg] <;>
      rw [hnum, hden, hpow] <;> field_simp <;> ring

/-- Lemma: `closeQ` decides exactly the numpy closeness predicate
`|a - b| <= atol + rtol * |b|` with `atol = 1e-8` and `rtol = 1e-5`. -/
theorem closeQ_iff (a b : ℚ) :
    closeQ a b = true ↔ |a - b| ≤ 1 / 100000000 + 1 / 100000 * |b| := by
  have hAd : (0 : ℚ) < (a.den : ℚ) := by exact_mod_cast a.den_pos
  have hBd : (0 : ℚ) < (b.den : ℚ) := by exact_mod_cast b.den_pos
  have hK : (0 : ℚ) < (a.den : ℚ) * (b.den : ℚ) := mul_pos hAd hBd
  have hna : (a.num : ℚ) = a * (a.den : ℚ) := (div_eq_iff hAd.ne').mp (Rat.num_div_den a)
  have hnb : (b.num : ℚ) = b * (b.den : ℚ) := (div_eq_iff hBd.ne').mp (Rat.num_div_den b)
  have habs : |a - b| * ((a.den : ℚ) * (b.den : ℚ))
      = |(a.num : ℚ) * (b.den : ℚ) - (b.num : ℚ) * (a.den : ℚ)| := by
    rw [hna, hnb]
    rw [show |a - b| * ((a.den : ℚ) * (b.den : ℚ))
        = |a - b| * |((a.den : ℚ) * (b.den : ℚ))| from by rw [abs_of_pos hK]]
    rw [← abs_mul]
    congr 1
    ring
  have habsb : |b| * (b.den : ℚ) = |(b.num : ℚ)| := by
    rw [hnb, show |b| * ((b.den : ℚ)) = |b| * |((b.den : ℚ))| from by rw [abs_of_pos hBd]]
    rw [← abs_mul]
  rw [closeQ, decide_eq_true_iff]
  constructor
  · intro h
    have hq : |(a.num : ℚ) * (b.den : ℚ) - (b.num : ℚ) * (a.den : ℚ)| * 10 ^ 13 ≤
        ((10 : ℚ) ^ 5 * (b.den : ℚ) + 10 ^ 8 * |(b.num : ℚ)|) * (a.den : ℚ) := by
      exact_mod_cast h
    rw [← habs, ← habsb] at hq
    have h2 : (|a - b| * 10 ^ 13) * ((a.den : ℚ) * (b.den : ℚ)) ≤
        ((10 : ℚ) ^ 5 + 10 ^ 8 * |b|) * ((a.den : ℚ) * (b.den : ℚ)) := by nlinarith [hq]
    have h3 := (mul_le_mul_right hK).mp h2
    linarith
  · intro h
    have h1 : |a - b| * 10 ^ 13 ≤ (10 : ℚ) ^ 5 + 10 ^ 8 * |b| := by linarith
    have h2 := (mul_le_mul_right hK).mpr h1
    have h3 : |(a.num : ℚ) * (b.den : ℚ) - (b.num : ℚ) * (a.den : ℚ)| * 10 ^ 13 ≤
        ((10 : ℚ) ^ 5 * (b.den : ℚ) + 10 ^ 8 * |(b.num : ℚ)|) * (a.den : ℚ) := by
      rw [← habs, ← habsb]
      nlinarith [h2]
    exact_mod_cast h3

theorem chunk4_length : ∀ l : List ℕ, (chunk4 l).length = l.length / 4
  | [] => by simp [chunk4]
  | [_] => by simp [chunk4]
  | [_, _] => by simp [chunk4]
  | [_, _, _] => by simp [chunk4]
  | a :: b :: c :: d :: rest => by
    simp only [chunk4, List.length_cons, chunk4_length rest]
    omega

theorem chunk4_get : ∀ (l : List ℕ) (k : ℕ), k < l.length / 4 →
    (chunk4 l)[k]? = some ((l.drop (4 * k)).take 4)
  | [], k, h => by simp at h
  | [_], k, h => by simp only [List.length_cons, List.length_nil] at h; omega
  | [_, _], k, h => by simp only [List.length_cons, List.length_nil] at h; omega
  | [_, _, _], k, h => by simp only [List.length_cons, List.length_nil] at h; omega
  | a :: b :: c :: d :: rest, 0, _ => by simp [chunk4]
  | a :: b :: c :: d :: rest, k + 1, h => by
    have hr : k < rest.length / 4 := by
      simp only [List.length_cons] at h
      omega
    have hstep : (a :: b :: c :: d :: rest).drop (4 * (k + 1)) = rest.drop (4 * k) := by
      have h4 : 4 * (k + 1) = 4 * k + 1 + 1 + 1 + 1 := by omega
      simp [h4, List.drop_succ_cons]
    simp only [chunk4, List.getElem?_cons_succ, chunk4_get rest k hr, hstep]

theorem chunk5_length : ∀ l : List Val, (chunk5 l).length = l.length / 5
  | [] => by simp [chunk5]
  | [_] => by simp [chunk5]
  | [_, _] => by simp [chunk5]
  | [_, _, _] => by simp [chunk5]
  | [_, _, _, _] => by simp [chunk5]
  | a :: b :: c :: d :: e :: rest => by
    simp only [chunk5, List.length_cons, chunk5_length rest]
    omega

theorem chunk5_get : ∀ (l : List Val) (k : ℕ), k < l.length / 5 →
    (chunk5 l)[k]? = some ((l.drop (5 * k)).take 5)
  | [], k, h => by simp at h
  | [_], k, h => by simp only [List.length_cons, List.length_nil] at h; omega
  | [_, _], k, h => by simp only [List.length_cons, List.length_nil] at h; omega
  | [_, _, _], k, h => by simp only [List.length_cons, List.length_nil] at h; omega
  | [_, _, _, _], k, h => by simp only [List.length_cons, List.length_nil] at h; omega
  | a :: b :: c :: d :: e :: rest, 0, _ => by simp [chunk5]
  | a :: b :: c :: d :: e :: rest, k + 1, h => by
    have hr : k < rest.length / 5 := by
      simp only [List.length_cons] at h
      omega
    have hstep : (a :: b :: c :: d :: e :: rest).drop (5 * (k + 1)) = rest.drop (5 * k) := by
      have h5 : 5 * (k + 1) = 5 * k + 1 + 1 + 1 + 1 + 1 := by omega
      simp [h5, List.drop_succ_cons]
    simp only [chunk5, List.getElem?_cons_succ, chunk5_get rest k hr, hstep]

theorem getD_take_drop {α : Type} (d : α) (l : List α) (n i k : ℕ)
    (hik : i < k) (h : n + i < l.length) :
    ((l.drop n).take k).getD i d = l.getD (n + i) d := by
  rw [List.getD_eq_getElem?_getD, List.getD_eq_getElem?_getD]
  rw [List.getElem?_take_of_lt hik, List.getElem?_drop]

/-- C2 (counterexample): a 22-byte buffer, whose length is not a multiple of
20, is decoded successfully by `load_numpy_bin` into one point — numpy
`fromfile` silently drops the trailing 2 bytes — contradicting the claim
that every such buffer fails with a malformed-input error. -/
theorem load_numpy_bin_truncates_22 :
    (22 : ℕ) % 20 ≠ 0 ∧ load_numpy_bin (List.replicate 22 0) =
      Except.ok [[Val.finV 0], [Val.finV 0], [Val.finV 0], [Val.finV 0]] := by
  exact ⟨by decide, by decide⟩

/-- C2 (amended): `load_numpy_bin` fails (with the reshape `ValueError`) if
and only if the number of complete 4-byte float32 elements, `len / 4`, is
not a multiple of 5; trailing bytes beyond a whole element are silently
dropped, so byte lengths that are not multiples of 4 can still succeed. -/
theorem load_numpy_bin_error_iff (content : List ℕ) :
    load_numpy_bin content = Except.error DecodeError.valueError ↔
      (content.length / 4) % 5 ≠ 0 := by
  by_cases h : (content.length / 4) % 5 = 0 <;>
    simp [load_numpy_bin, List.length_map, chunk4_length, h]

/-- C6: on every buffer whose byte length is a multiple of 20, the flat
decoder succeeds with a 4-row matrix of `length / 20` columns, where entry
`(i, j)` is the float32 decoded from bytes `20*j + 4*i .. 20*j + 4*i + 4`
(field `i` of point `j` in input order; the fifth field of each point is in
no row). -/
theorem load_numpy_bin_layout (content : List ℕ) (h : content.length % 20 = 0) :
    ∃ m, load_numpy_bin content = Except.ok m ∧ m.length = 4 ∧
      ∀ i : Fin 4, ∃ row, m[(i : ℕ)]? = some row ∧ row.length = content.length / 20 ∧
        ∀ j : ℕ, j < content.length / 20 →
          row[j]? = some (decodeF32 ((content.drop (20 * j + 4 * (i : ℕ))).take 4)) := by
  have hscan : ((chunk4 content).map decodeF32).length = content.length / 4 := by
    simp [List.length_map, chunk4_length]
  have hmod : (content.length / 4) % 5 = 0 := by omega
  set scan := (chunk4 content).map decodeF32 with hscandef
  have hpts : (chunk5 scan).length = content.length / 20 := by
    rw [chunk5_length, hscan]
    omega
  refine ⟨(List.range 4).map (fun k => (chunk5 scan).map (fun pt => pt.getD k (Val.finV 0))),
    ?_, ?_, ?_⟩
  · unfold load_numpy_bin
    rw [if_pos (by rw [hscan]; exact hmod)]
  · simp
  · intro i
    refine ⟨(chunk5 scan).map (fun pt => pt.getD (i : ℕ) (Val.finV 0)), ?_, ?_, ?_⟩
    · rw [List.getElem?_map, List.getElem?_range i.isLt]
      rfl
    · simp [List.length_map, hpts]
    · intro j hj
      have hjn : j < (chunk5 scan).length := by rw [hpts]; exact hj
      have hchunk : (chunk5 scan)[j]? = some ((scan.drop (5 * j)).take 5) :=
        chunk5_get scan j (by rw [chunk5_length] at hjn; exact hjn)
      rw [List.getElem?_map, hchunk]
      have hidx : 5 * j + (i : ℕ) < scan.length := by
        rw [hscan]
        have := i.isLt
        omega
      have hgetD : ((scan.drop (5 * j)).take 5).getD (i : ℕ) (Val.finV 0) =
          scan.getD (5 * j + (i : ℕ)) (Val.finV 0) :=
        getD_take_drop _ _ _ _ _ (by have := i.isLt; omega) hidx
      have hscanAt : scan[5 * j + (i : ℕ)]? =
          some (decodeF32 ((content.drop (20 * j + 4 * (i : ℕ))).take 4)) := by
        rw [hscandef, List.getElem?_map]
        have hk : 5 * j + (i : ℕ) < content.length / 4 := by
          have := i.isLt
          omega
        rw [chunk4_get content _ hk]
        have : 4 * (5 * j + (i : ℕ)) = 20 * j + 4 * (i : ℕ) := by ring
        rw [this]
        rfl
      simp only [Option.map_some']
      congr 1
      rw [hgetD, List.getD_eq_getElem?_getD, hscanAt]
      rfl

/-- Witness for `load_numpy_bin_layout` at a concrete 20-byte buffer. -/
theorem load_numpy_bin_layout_witness :
    (List.replicate 20 (0:ℕ)).length % 20 = 0 ∧
      (∃ m, load_numpy_bin (List.replicate 20 0) = Except.ok m ∧ m.length = 4 ∧
        ∀ i : Fin 4, ∃ row, m[(i : ℕ)]? = some row ∧
          row.length = (List.replicate 20 (0:ℕ)).length / 20 ∧
          ∀ j : ℕ, j < (List.replicate 20 (0:ℕ)).length / 20 →
            row[j]? = some (decodeF32 (((List.replicate 20 (0:ℕ)).drop
              (20 * j + 4 * (i : ℕ))).take 4))) :=
  ⟨by decide, load_numpy_bin_layout (List.replicate 20 0) (by decide)⟩

theorem getIdx_eq_ok {α : Type} (l : List α) (p : ℕ) (d : α) (h : p < l.length) :
    getIdx l p = Except.ok (l.getD p d) := by
  unfold getIdx
  have hg : l.get? p = some (l.getD p d) := by
    rw [List.get?_eq_getElem?, List.getD_eq_getElem?_getD, List.getElem?_eq_getElem h]
    rfl
  rw [hg]

theorem unpackVal_ok (c : Char) (bs : List ℕ) (h1 : bs.length = fmtSize c)
    (h2 : fmtSize c ≠ 0) : ∃ v, unpackVal c bs = Except.ok v := by
  unfold unpackVal
  rw [if_pos ⟨h1, h2⟩]
  split <;> exact ⟨_, rfl⟩

theorem sum_range_getD : ∀ ns : List ℕ,
    ((List.range ns.length).map (fun p => ns.getD p 0)).sum = ns.sum
  | [] => by simp
  | a :: tl => by
    rw [List.length_cons, List.range_succ_eq_map]
    simp only [List.map_cons, List.map_map, List.sum_cons, List.getD_cons_zero]
    have hcongr : (List.range tl.length).map ((fun p => (a :: tl).getD p 0) ∘ (· + 1)) =
        (List.range tl.length).map (fun p => tl.getD p 0) := by
      apply List.map_congr_left
      intro x _
      simp [List.getD_cons_succ]
    rw [hcongr, sum_range_getD tl]

theorem decodeFields_ok (payload : List ℕ) (sizes : List (List Char)) (ts : List Char)
    (ns : List ℕ) (hlen : sizes.length = ns.length) (hts : ts.length = ns.length)
    (hparse : ∀ p, p < ns.length →
      parseIntCh (sizes.getD p []) = Except.ok ((ns.getD p 0 : ℕ) : ℤ))
    (hfmt : ∀ p, p < ns.length →
      fmtSize (ts.getD p ' ') = ns.getD p 0 ∧ fmtSize (ts.getD p ' ') ≠ 0) :
    ∀ (ps : List ℕ) (offset : ℕ), (∀ p ∈ ps, p < ns.length) →
      offset + (ps.map (fun p => ns.getD p 0)).sum < payload.length →
      ∃ vals, decodeFields payload sizes ts ps offset =
        Except.ok (vals, offset + (ps.map (fun p => ns.getD p 0)).sum) := by
  intro ps
  induction ps with
  | nil => intro offset _ _; exact ⟨[], by simp [decodeFields]⟩
  | cons p ps ih =>
    intro offset hmem hlt
    have hp : p < ns.length := hmem p (by simp)
    have hps : ∀ q ∈ ps, q < ns.length := fun q hq => hmem q (by simp [hq])
    have hpl : p < sizes.length := by omega
    have hptl : p < ts.length := by omega
    simp only [List.map_cons, List.sum_cons] at hlt ⊢
    have htoNat : (((ns.getD p 0 : ℕ) : ℤ)).toNat = ns.getD p 0 := by omega
    have hcond : offset + ns.getD p 0 < payload.length := by omega
    have hslice : ((payload.drop offset).take (ns.getD p 0)).length = ns.getD p 0 := by
      simp only [List.length_take, List.length_drop]
      omega
    obtain ⟨v, hv⟩ := unpackVal_ok (ts.getD p ' ') ((payload.drop offset).take (ns.getD p 0))
      (by rw [hslice, (hfmt p hp).1]) (hfmt p hp).2
    obtain ⟨vals, hrec⟩ := ih (offset + ns.getD p 0) hps (by omega)
    refine ⟨v :: vals, ?_⟩
    simp only [decodeFields, getIdx_eq_ok sizes p [] hpl, hparse p hp,
      getIdx_eq_ok ts p ' ' hptl, htoNat, if_pos hcond, hv, hrec]
    rw [Nat.add_assoc]

theorem decodeFields_bounds (payload : List ℕ) (sizes : List (List Char)) (ts : List Char)
    (ns : List ℕ) (hlen : sizes.length = ns.length) (hts : ts.length = ns.length)
    (hparse : ∀ p, p < ns.length →
      parseIntCh (sizes.getD p []) = Except.ok ((ns.getD p 0 : ℕ) : ℤ))
    (hfmt : ∀ p, p < ns.length →
      fmtSize (ts.getD p ' ') = ns.getD p 0 ∧ fmtSize (ts.getD p ' ') ≠ 0) :
    ∀ (ps : List ℕ) (offset : ℕ), (∀ p ∈ ps, p < ns.length) → ps ≠ [] →
      payload.length ≤ offset + (ps.map (fun p => ns.getD p 0)).sum →
      decodeFields payload sizes ts ps offset = Except.error DecodeError.boundsError := by
  intro ps
  induction ps with
  | nil => intro _ _ hne _; exact absurd rfl hne
  | cons p ps ih =>
    intro offset hmem _ hge
    have hp : p < ns.length := hmem p (by simp)
    have hps : ∀ q ∈ ps, q < ns.length := fun q hq => hmem q (by simp [hq])
    have hpl : p < sizes.length := by omega
    have hptl : p < ts.length := by omega
    simp only [List.map_cons, List.sum_cons] at hge
    have htoNat : (((ns.getD p 0 : ℕ) : ℤ)).toNat = ns.getD p 0 := by omega
    by_cases hcond : offset + ns.getD p 0 < payload.length
    · have hne : ps ≠ [] := by
        intro hnil
        rw [hnil] at hge
        simp only [List.map_nil, List.sum_nil, Nat.add_zero] at hge
        omega
      have hslice : ((payload.drop offset).take (ns.getD p 0)).length = ns.getD p 0 := by
        simp only [List.length_take, List.length_drop]
        omega
      obtain ⟨v, hv⟩ := unpackVal_ok (ts.getD p ' ')
        ((payload.drop offset).take (ns.getD p 0))
        (by rw [hslice, (hfmt p hp).1]) (hfmt p hp).2
      have hrec := ih (offset + ns.getD p 0) hps hne (by omega)
      simp only [decodeFields, getIdx_eq_ok sizes p [] hpl, hparse p hp,
        getIdx_eq_ok ts p ' ' hptl, htoNat, if_pos hcond, hv, hrec]
    · simp only [decodeFields, getIdx_eq_ok sizes p [] hpl, hparse p hp, htoNat,
        if_neg hcond]

theorem decodePointsRec_ok (payload : List ℕ) (sizes : List (List Char)) (ts : List Char)
    (ns : List ℕ) (hlen : sizes.length = ns.length) (hts : ts.length = ns.length)
    (hparse : ∀ p, p < ns.length →
      parseIntCh (sizes.getD p []) = Except.ok ((ns.getD p 0 : ℕ) : ℤ))
    (hfmt : ∀ p, p < ns.length →
      fmtSize (ts.getD p ' ') = ns.getD p 0 ∧ fmtSize (ts.getD p ' ') ≠ 0) :
    ∀ (n offset : ℕ), offset + n * ns.sum < payload.length →
      ∃ pts, decodePointsRec payload sizes ts ns.length n offset =
        Except.ok (pts, offset + n * ns.sum) ∧ pts.length = n := by
  intro n
  induction n with
  | zero => intro offset _; exact ⟨[], by simp [decodePointsRec], rfl⟩
  | succ n ih =>
    intro offset hlt
    have hone : offset + ((List.range ns.length).map (fun p => ns.getD p 0)).sum
        < payload.length := by
      rw [sum_range_getD]
      have hmul : (n + 1) * ns.sum = ns.sum + n * ns.sum := by ring
      omega
    obtain ⟨vals, hv⟩ := decodeFields_ok payload sizes ts ns hlen hts hparse hfmt
      (List.range ns.length) offset (fun p hp => List.mem_range.mp hp) hone
    obtain ⟨pts, hrec, hlen2⟩ := ih (offset + ns.sum) (by
      have hmul : (n + 1) * ns.sum = ns.sum + n * ns.sum := by ring
      omega)
    refine ⟨vals :: pts, ?_, by simp [hlen2]⟩
    simp only [decodePointsRec, hv, sum_range_getD, hrec]
    congr 2
    ring

theorem decodePointsRec_bounds (payload : List ℕ) (sizes : List (List Char)) (ts : List Char)
    (ns : List ℕ) (hlen : sizes.length = ns.length) (hts : ts.length = ns.length)
    (hparse : ∀ p, p < ns.length →
      parseIntCh (sizes.getD p []) = Except.ok ((ns.getD p 0 : ℕ) : ℤ))
    (hfmt : ∀ p, p < ns.length →
      fmtSize (ts.getD p ' ') = ns.getD p 0 ∧ fmtSize (ts.getD p ' ') ≠ 0)
    (hfc : 0 < ns.length) :
    ∀ (n offset : ℕ), 0 < n → payload.length ≤ offset + n * ns.sum →
      decodePointsRec payload sizes ts ns.length n offset =
        Except.error DecodeError.boundsError := by
  intro n
  induction n with
  | zero => intro offset h0 _; exact absurd h0 (by omega)
  | succ n ih =>
    intro offset _ hge
    by_cases hcond : offset + ns.sum < payload.length
    · obtain ⟨vals, hv⟩ := decodeFields_ok payload sizes ts ns hlen hts hparse hfmt
        (List.range ns.length) offset (fun p hp => List.mem_range.mp hp)
        (by rw [sum_range_getD]; exact hcond)
      have hn : 0 < n := by
        rcases Nat.eq_zero_or_pos n with h0 | h0
        · subst h0
          have hmul : (0 + 1) * ns.sum = ns.sum := by ring
          omega
        · exact h0
      have hrec := ih (offset + ns.sum) hn (by
        have hmul : (n + 1) * ns.sum = ns.sum + n * ns.sum := by ring
        omega)
      simp only [decodePointsRec, hv, sum_range_getD, hrec]
    · have hne : List.range ns.length ≠ [] := by
        intro hnil
        have h0 := List.range_eq_nil.mp hnil
        omega
      have hb := decodeFields_bounds payload sizes ts ns hlen hts hparse hfmt
        (List.range ns.length) offset (fun p hp => List.mem_range.mp hp) hne
        (by rw [sum_range_getD]; omega)
      simp only [decodePointsRec, hb]

/-- C1 (code bug): the COUNT assertion of `load_pcd_bin` (line 81) filters
the COUNT tokens with `c != c`, which no token satisfies, so `countCheck` is
true for every COUNT line and the assertion can never fire; concretely, a
file whose header says `COUNT 2` is accepted and decoded to the payload
matrix instead of failing with the malformed-input error. -/
theorem count_check_vacuous_count2_accepted :
    (∀ counts : List (List Char), countCheck counts = true) ∧
    load_pcd_bin (strBytes pcdHeaderCount2 ++ [0, 0, 0, 0, 0]) =
      Except.ok [[Val.finV 0]] := by
  constructor
  · intro counts
    have h : counts.filter (fun c => c != c) = [] := by
      induction counts with
      | nil => rfl
      | cons c cs ih => simp [List.filter, ih]
    simp [countCheck, h]
  · decide

/-- C3 (counterexample): a well-formed single-field float32 header with
WIDTH 1 (so WIDTH * ΣSIZE = 4) and a binary payload of exactly 4 bytes
fails with the bounds error instead of decoding all WIDTH points, because
the bounds assert is strict (`end_p < len(data_binary)`). -/
theorem pcd_exact_payload_bounds_error :
    (readMeta (strBytes pcdHeaderF4 ++ List.replicate 4 0)).2 = List.replicate 4 0 ∧
    load_pcd_bin (strBytes pcdHeaderF4 ++ List.replicate 4 0) =
      Except.error DecodeError.boundsError :=
  ⟨by decide, by decide⟩

/-- C3 (amended): for a well-formed header (each SIZE token parses to the
byte width of the matching TYPE format character, at least one field,
positive WIDTH), the point decode succeeds exactly when
`WIDTH * ΣSIZE < payload length` — the strict bounds assert demands at
least one byte beyond the last field read — and whenever
`payload length ≤ WIDTH * ΣSIZE` (in particular for a payload of exactly
`WIDTH * ΣSIZE` bytes) it fails with the bounds error. -/
theorem decode_points_ok_iff (payload : List ℕ) (sizes : List (List Char))
    (ts : List Char) (ns : List ℕ) (width : ℕ)
    (hlen : sizes.length = ns.length) (hts : ts.length = ns.length)
    (hparse : ∀ p, p < ns.length →
      parseIntCh (sizes.getD p []) = Except.ok ((ns.getD p 0 : ℕ) : ℤ))
    (hfmt : ∀ p, p < ns.length →
      fmtSize (ts.getD p ' ') = ns.getD p 0 ∧ fmtSize (ts.getD p ' ') ≠ 0)
    (hfc : 0 < ns.length) (hw : 0 < width) :
    ((∃ pts, decodePoints payload sizes ts ns.length width = Except.ok pts ∧
        pts.length = width) ↔ width * ns.sum < payload.length) ∧
    (payload.length ≤ width * ns.sum →
      decodePoints payload sizes ts ns.length width =
        Except.error DecodeError.boundsError) := by
  constructor
  · constructor
    · rintro ⟨pts, hpts, _⟩
      by_contra hc
      push_neg at hc
      have herr := decodePointsRec_bounds payload sizes ts ns hlen hts hparse hfmt hfc
        width 0 hw (by omega)
      unfold decodePoints at hpts
      rw [herr] at hpts
      exact absurd hpts (by simp)
    · intro hlt
      obtain ⟨pts, hp, hl⟩ := decodePointsRec_ok payload sizes ts ns hlen hts hparse hfmt
        width 0 (by omega)
      refine ⟨pts, ?_, hl⟩
      unfold decodePoints
      rw [hp]
  · intro hge
    have herr := decodePointsRec_bounds payload sizes ts ns hlen hts hparse hfmt hfc
      width 0 hw (by omega)
    unfold decodePoints
    rw [herr]

/-- Witness for `decode_points_ok_iff`: one float32 field (`SIZE 4`,
`TYPE F`), width 1, and a 5-byte payload, so 4 < 5 and the decode
succeeds. -/
theorem decode_points_ok_iff_witness :
    (1 * ([4] : List ℕ).sum < (List.replicate 5 (0 : ℕ)).length) ∧
    (∃ pts, decodePoints (List.replicate 5 0) ["4".data] ['f'] ([4] : List ℕ).length 1 =
      Except.ok pts ∧ pts.length = 1) := by
  have h := decode_points_ok_iff (List.replicate 5 0) ["4".data] ['f'] [4] 1
    (by decide) (by decide)
    (by
      intro p hp
      have hp0 : p = 0 := by simpa using hp
      subst hp0
      decide)
    (by
      intro p hp
      have hp0 : p = 0 := by simpa using hp
      subst hp0
      decide)
    (by decide) (by decide)
  exact ⟨by decide, h.1.mpr (by decide)⟩

/-- C4 (code bug): for any `.pcd` file (and a name not ending in `.bin`)
whose header decode yields the 18-row radar matrix, `from_file` does not
return the wrapped point cloud: the `PointCloud.__init__` assertion
`points.shape[0] == 4` rejects the 18-row matrix. -/
theorem from_file_pcd_radar_asserts (name : String) (content : List ℕ)
    (m : List (List Val))
    (hbin : endsWithS name (".bin") = false)
    (hpcd : endsWithS name (".pcd") = true)
    (hdec : load_pcd_bin content = Except.ok m)
    (hrows : m.length = 18) :
    from_file name content =
      Except.error
        (DecodeError.assertError ("Error: Pointcloud points must have format: 4 x n")) := by
  unfold from_file
  rw [hbin, hpcd]
  simp only [Bool.false_eq_true, if_false, if_true, hdec]
  unfold PointCloud.mkE
  rw [if_neg (by omega)]

set_option maxRecDepth 40000 in
/-- Witness for `from_file_pcd_radar_asserts` at the concrete one-point
radar file. -/
theorem from_file_pcd_radar_asserts_witness :
    endsWithS ("radar.pcd") (".bin") = false ∧
    endsWithS ("radar.pcd") (".pcd") = true ∧
    load_pcd_bin radarPcdContent = Except.ok (List.replicate 18 [Val.finV 0]) ∧
    (List.replicate 18 ([Val.finV 0] : List Val)).length = 18 ∧
    from_file ("radar.pcd") radarPcdContent =
      Except.error
        (DecodeError.assertError ("Error: Pointcloud points must have format: 4 x n")) :=
  ⟨by decide, by decide, by decide, by decide,
    from_file_pcd_radar_asserts ("radar.pcd") radarPcdContent
      (List.replicate 18 [Val.finV 0]) (by decide) (by decide) (by decide) (by decide)⟩

/-- C7: whenever the raw header-and-points decode succeeds and the first
decoded point contains a NaN in any field, `load_pcd_bin` returns the
`feature_count × 0` empty matrix: a successful `Except.ok` result (not a
malformed-input or bounds error) with `feature_count` rows and zero
columns, instead of the decoded point set. -/
theorem pcd_nan_first_point_empty (file : List ℕ) (fc : ℕ) (p0 : List Val)
    (rest : List (List Val))
    (hraw : pcdDecodeRaw file = Except.ok (fc, p0 :: rest))
    (hnan : p0.any isnanVal = true) :
    load_pcd_bin file = Except.ok (List.replicate fc ([] : List Val)) ∧
    (List.replicate fc ([] : List Val)).length = fc ∧
    ∀ row ∈ List.replicate fc ([] : List Val), row.length = 0 := by
  refine ⟨?_, by simp, ?_⟩
  · unfold load_pcd_bin
    rw [hraw]
    dsimp only [getIdx, List.get?]
    rw [if_pos hnan]
  · intro row hrow
    rw [List.eq_of_mem_replicate hrow]
    rfl

/-- Witness for `pcd_nan_first_point_empty`: a one-field file whose single
point is the float32 quiet NaN. -/
theorem pcd_nan_first_point_empty_witness :
    pcdDecodeRaw (strBytes pcdHeaderF4 ++ [0, 0, 192, 127, 0]) =
      Except.ok (1, [[Val.nanV]]) ∧
    ([Val.nanV] : List Val).any isnanVal = true ∧
    load_pcd_bin (strBytes pcdHeaderF4 ++ [0, 0, 192, 127, 0]) =
      Except.ok (List.replicate 1 ([] : List Val)) :=
  ⟨by decide, by decide,
    (pcd_nan_first_point_empty (strBytes pcdHeaderF4 ++ [0, 0, 192, 127, 0]) 1
      [Val.nanV] [] (by decide) (by decide)).1⟩

/-- C10: box equality is not reflexive at the public interface: a box whose
velocity has one present and two absent components compares unequal to
itself, because `np.allclose` fails on the NaN components while the
all-components-NaN fallback fails on the present one. -/
theorem box_eq_not_reflexive :
    boxMixedVel.velocity = [some 1, none, none] ∧
    boxEq boxMixedVel boxMixedVel = false :=
  ⟨by decide, by decide⟩

/-- C5 (counterexample): two boxes with identical storage and velocity
(1, NaN, NaN) agree component-wise (each component equal or absent in
both), yet `__eq__` reports them unequal, refuting the claimed
component-wise equal-or-both-absent semantics. -/
theorem box_velocity_componentwise_ne :
    (List.zipWith eqOrBothNaN boxMixedVel5.velocity boxMixedVel5.velocity).all
      (fun p => p) = true ∧
    boxEq boxMixedVel5 boxMixedVel5 = false :=
  ⟨by decide, by decide⟩

/-- C5 (amended): for boxes agreeing on center, extents, orientation, label
and score, equality holds exactly when the velocities are numerically close
with every component present, or all three components are absent in both
boxes: absence is all-or-nothing, so two all-absent boxes are equal, a
present velocity never equals an absent one, and mixed presence is unequal
even with component-wise agreement. -/
theorem box_eq_velocity_iff (a b : Box)
    (hc : allcloseL a.center b.center = true)
    (hw : allcloseL a.wlh b.wlh = true)
    (ho : allcloseL a.orientation.elements b.orientation.elements = true)
    (hl : eqOrBothNaN a.label b.label = true)
    (hs : eqOrBothNaN a.score b.score = true) :
    boxEq a b = true ↔
      (allcloseO a.velocity b.velocity = true ∨
        (a.velocity.all Option.isNone = true ∧ b.velocity.all Option.isNone = true)) := by
  unfold boxEq
  simp [hc, hw, ho, hl, hs, Bool.or_eq_true, Bool.and_eq_true]

/-- Witness for `box_eq_velocity_iff` at two all-absent-velocity boxes (the
right-hand side holds through the all-absent disjunct). -/
theorem box_eq_velocity_iff_witness :
    allcloseL boxAbsVel.center boxAbsVel.center = true ∧
    (boxEq boxAbsVel boxAbsVel = true ↔
      (allcloseO boxAbsVel.velocity boxAbsVel.velocity = true ∨
        (boxAbsVel.velocity.all Option.isNone = true ∧
          boxAbsVel.velocity.all Option.isNone = true))) :=
  ⟨by decide, box_eq_velocity_iff boxAbsVel boxAbsVel
    (by decide) (by decide) (by decide) (by decide) (by decide)⟩

theorem getD_map_range {β : Type} (g : ℕ → β) (n r : ℕ) (d : β) (h : r < n) :
    ((List.range n).map g).getD r d = g r := by
  rw [List.getD_eq_getElem?_getD, List.getElem?_map, List.getElem?_range h]
  rfl

theorem getD_map_in {α β : Type} (f : α → β) (l : List α) (i : ℕ) (d : α) (d2 : β)
    (h : i < l.length) : (l.map f).getD i d2 = f (l.getD i d) := by
  rw [List.getD_eq_getElem?_getD, List.getElem?_map, List.getElem?_eq_getElem h,
    List.getD_eq_getElem?_getD, List.getElem?_eq_getElem h]
  rfl

/-- Row `r` of `corners`: the rotation row applied to the pre-rotation
corners plus the center component, as a map over the 8 corner indices. -/
theorem corners_row (b : Box) (f : ℚ) (r : ℕ) (hr : r < 3) :
    (b.corners f).getD r [] = (List.range 8).map (fun i =>
      (b.orientation.rotMat.getD r []).getD 0 0 * (((b.cornersPre f).getD 0 []).getD i 0) +
      (b.orientation.rotMat.getD r []).getD 1 0 * (((b.cornersPre f).getD 1 []).getD i 0) +
      (b.orientation.rotMat.getD r []).getD 2 0 * (((b.cornersPre f).getD 2 []).getD i 0) +
      b.center.getD r 0) := by
  simp only [Box.corners]
  rw [getD_map_range _ 3 r [] hr, getD_map_range _ 3 r [] hr, List.map_map]
  rfl

/-- C8: `corners` always returns a 3×8 matrix (exactly 8 corner columns),
whose entry `(r, i)` is row `r` of the rotation matrix applied to the
pre-rotation corner `i` — whose coordinates are
`x = (±1) * (length/2) * factor`, `y = (±1) * (width/2) * factor`,
`z = (±1) * (height/2) * factor` with the exact sign patterns
`x: [1,1,1,1,-1,-1,-1,-1]`, `y: [1,-1,-1,1,1,-1,-1,1]`,
`z: [1,1,-1,-1,1,1,-1,-1]` — plus the center component `r`; and the
pre-rotation corners 0 and 4 differ only in the sign of x. -/
theorem corners_formula (b : Box) (f : ℚ) :
    (b.corners f).length = 3 ∧
    (∀ r : Fin 3, ((b.corners f).getD (r : ℕ) []).length = 8) ∧
    (∀ r : Fin 3, ∀ i : Fin 8,
      ((b.corners f).getD (r : ℕ) []).getD (i : ℕ) 0 =
        (b.orientation.rotMat.getD (r : ℕ) []).getD 0 0 *
            (([1, 1, 1, 1, -1, -1, -1, -1] : List ℚ).getD (i : ℕ) 0 *
              (b.wlh.getD 1 0 * f / 2)) +
          (b.orientation.rotMat.getD (r : ℕ) []).getD 1 0 *
            (([1, -1, -1, 1, 1, -1, -1, 1] : List ℚ).getD (i : ℕ) 0 *
              (b.wlh.getD 0 0 * f / 2)) +
          (b.orientation.rotMat.getD (r : ℕ) []).getD 2 0 *
            (([1, 1, -1, -1, 1, 1, -1, -1] : List ℚ).getD (i : ℕ) 0 *
              (b.wlh.getD 2 0 * f / 2)) +
          b.center.getD (r : ℕ) 0) ∧
    (((b.cornersPre f).getD 0 []).getD 0 0 = -(((b.cornersPre f).getD 0 []).getD 4 0) ∧
      ((b.cornersPre f).getD 1 []).getD 0 0 = ((b.cornersPre f).getD 1 []).getD 4 0 ∧
      ((b.cornersPre f).getD 2 []).getD 0 0 = ((b.cornersPre f).getD 2 []).getD 4 0) := by
  have hx : ∀ i : ℕ, i < 8 → ((b.cornersPre f).getD 0 []).getD i 0 =
      ([1, 1, 1, 1, -1, -1, -1, -1] : List ℚ).getD i 0 *
        (b.wlh.getD 1 0 * f / 2) := by
    intro i hi
    show (([1, 1, 1, 1, -1, -1, -1, -1] : List ℚ).map
        (fun s => b.wlh.getD 1 0 * f / 2 * s)).getD i 0 = _
    rw [getD_map_in _ _ _ 0 _ (by simpa using hi)]
    ring
  have hy : ∀ i : ℕ, i < 8 → ((b.cornersPre f).getD 1 []).getD i 0 =
      ([1, -1, -1, 1, 1, -1, -1, 1] : List ℚ).getD i 0 *
        (b.wlh.getD 0 0 * f / 2) := by
    intro i hi
    show (([1, -1, -1, 1, 1, -1, -1, 1] : List ℚ).map
        (fun s => b.wlh.getD 0 0 * f / 2 * s)).getD i 0 = _
    rw [getD_map_in _ _ _ 0 _ (by simpa using hi)]
    ring
  have hz : ∀ i : ℕ, i < 8 → ((b.cornersPre f).getD 2 []).getD i 0 =
      ([1, 1, -1, -1, 1, 1, -1, -1] : List ℚ).getD i 0 *
        (b.wlh.getD 2 0 * f / 2) := by
    intro i hi
    show (([1, 1, -1, -1, 1, 1, -1, -1] : List ℚ).map
        (fun s => b.wlh.getD 2 0 * f / 2 * s)).getD i 0 = _
    rw [getD_map_in _ _ _ 0 _ (by simpa using hi)]
    ring
  refine ⟨by simp [Box.corners], ?_, ?_, ?_, ?_, ?_⟩
  · intro r
    rw [corners_row b f (r : ℕ) r.isLt]
    simp
  · intro r i
    rw [corners_row b f (r : ℕ) r.isLt,
      getD_map_range _ 8 (i : ℕ) 0 i.isLt, hx (i : ℕ) i.isLt, hy (i : ℕ) i.isLt,
      hz (i : ℕ) i.isLt]
  · rw [hx 0 (by norm_num), hx 4 (by norm_num)]
    norm_num
  · rw [hy 0 (by norm_num), hy 4 (by norm_num)]
    norm_num
  · rw [hz 0 (by norm_num), hz 4 (by norm_num)]
    norm_num

theorem getD_zipWith_in {α β γ : Type} (g : α → β → γ) (as : List α) (bs : List β)
    (j : ℕ) (da : α) (db : β) (dc : γ) (ha : j < as.length) (hb : j < bs.length) :
    (List.zipWith g as bs).getD j dc = g (as.getD j da) (bs.getD j db) := by
  rw [List.getD_eq_getElem?_getD, List.getElem?_zipWith, List.getElem?_eq_getElem ha,
    List.getElem?_eq_getElem hb, List.getD_eq_getElem?_getD, List.getElem?_eq_getElem ha,
    List.getD_eq_getElem?_getD, List.getElem?_eq_getElem hb]
  rfl

theorem getD_mem_in {α : Type} (l : List α) (i : ℕ) (d : α) (h : i < l.length) :
    l.getD i d ∈ l := by
  rw [List.getD_eq_getElem?_getD, List.getElem?_eq_getElem h]
  exact List.getElem_mem h

/-- numpy boolean-mask selection described by column index: the selected
entries are exactly those whose index satisfies the mask, in order. -/
theorem maskSelect_eq : ∀ (mask : List Bool) (xs : List Val), mask.length = xs.length →
    maskSelect mask xs = (List.range xs.length).filterMap
      (fun j => if mask.getD j false = true then some (xs.getD j Val.nanV) else none)
  | [], [], _ => by simp [maskSelect]
  | [], _ :: _, h => by simp at h
  | _ :: _, [], h => by simp at h
  | m :: ms, x :: tl, h => by
    have hlen : ms.length = tl.length := by simpa using h
    have ih := maskSelect_eq ms tl hlen
    have hzip : maskSelect (m :: ms) (x :: tl) =
        (if m = true then [x] else []) ++ maskSelect ms tl := by
      cases m <;> simp [maskSelect, List.zip_cons_cons, List.filterMap_cons]
    have hrange : (List.range (x :: tl).length).filterMap
        (fun j => if (m :: ms).getD j false = true
          then some ((x :: tl).getD j Val.nanV) else none) =
        (if m = true then [x] else []) ++ (List.range tl.length).filterMap
          (fun j => if ms.getD j false = true then some (tl.getD j Val.nanV) else none) := by
      rw [List.length_cons, List.range_succ_eq_map, List.filterMap_cons, List.filterMap_map]
      have hcomp : ((fun j => if (m :: ms).getD j false = true
          then some ((x :: tl).getD j Val.nanV) else none) ∘ (· + 1)) =
          (fun j => if ms.getD j false = true then some (tl.getD j Val.nanV) else none) := by
        funext j
        simp [Function.comp, List.getD_cons_succ]
      rw [hcomp]
      cases m <;> simp [List.getD_cons_zero]
    rw [hzip, hrange, ih]

/-- C9: `remove_close` removes exactly the columns whose x entry and y entry
both have absolute value strictly below the radius, and keeps all others:
every row of the result is the matching input row restricted, in order, to
the column indices that fail the x-and-y gate — a gate computed only from
rows 0 and 1, never from z. Concretely, for any positive radius, a lone
point `(radius/2, radius/2, 1000)` is removed (the huge z is ignored) while
`(2*radius, 0, 0)` is retained with every row unchanged. -/
theorem remove_close_gate (pc : PointCloud) (radius : ℚ) (n : ℕ)
    (hrows : pc.points.length = 4)
    (hrect : ∀ row ∈ pc.points, row.length = n)
    (hr : 0 < radius) :
    ((pc.remove_close radius).points.length = 4) ∧
    (∀ i : Fin 4,
      (pc.remove_close radius).points.getD (i : ℕ) [] =
        (List.range n).filterMap (fun j =>
          if (!(absLtVal ((pc.points.getD 0 []).getD j Val.nanV) radius &&
               absLtVal ((pc.points.getD 1 []).getD j Val.nanV) radius)) = true
          then some ((pc.points.getD (i : ℕ) []).getD j Val.nanV) else none)) ∧
    (PointCloud.remove_close ⟨[[Val.finV (radius / 2)], [Val.finV (radius / 2)],
        [Val.finV 1000], [Val.finV 7]]⟩ radius).points = [[], [], [], []] ∧
    (PointCloud.remove_close ⟨[[Val.finV (2 * radius)], [Val.finV 0], [Val.finV 0],
        [Val.finV 9]]⟩ radius).points =
      [[Val.finV (2 * radius)], [Val.finV 0], [Val.finV 0], [Val.finV 9]] := by
  have habs1 : absLtVal (Val.finV (radius / 2)) radius = true := by
    simp only [absLtVal, decide_eq_true_eq]
    rw [abs_of_pos (by positivity)]
    linarith
  have habs2 : absLtVal (Val.finV (2 * radius)) radius = false := by
    simp only [absLtVal, decide_eq_false_iff_not]
    rw [abs_of_pos (by positivity)]
    intro hcon
    linarith
  refine ⟨?_, ?_, ?_, ?_⟩
  · simp [PointCloud.remove_close, removeCloseM, hrows]
  · intro i
    have hpi : (i : ℕ) < pc.points.length := by
      rw [hrows]
      exact i.isLt
    have h0 : (0 : ℕ) < pc.points.length := by omega
    have h1 : (1 : ℕ) < pc.points.length := by omega
    have hrow0 : (pc.points.getD 0 []).length = n := hrect _ (getD_mem_in _ _ _ h0)
    have hrow1 : (pc.points.getD 1 []).length = n := hrect _ (getD_mem_in _ _ _ h1)
    have hrowi : (pc.points.getD (i : ℕ) []).length = n := hrect _ (getD_mem_in _ _ _ hpi)
    have hmask : (List.zipWith (fun a b => !(a && b))
        ((pc.points.getD 0 []).map (fun v => absLtVal v radius))
        ((pc.points.getD 1 []).map (fun v => absLtVal v radius))).length = n := by
      rw [List.length_zipWith, List.length_map, List.length_map, hrow0, hrow1]
      omega
    have hstep : (pc.remove_close radius).points.getD (i : ℕ) [] =
        maskSelect (List.zipWith (fun a b => !(a && b))
          ((pc.points.getD 0 []).map (fun v => absLtVal v radius))
          ((pc.points.getD 1 []).map (fun v => absLtVal v radius)))
          (pc.points.getD (i : ℕ) []) := by
      show (pc.points.map _).getD (i : ℕ) [] = _
      rw [getD_map_in _ _ _ [] _ hpi]
    rw [hstep, maskSelect_eq _ _ (by rw [hmask, hrowi]), hrowi]
    apply List.filterMap_congr
    intro j hj
    have hjn : j < n := List.mem_range.mp hj
    have hmj : (List.zipWith (fun a b => !(a && b))
        ((pc.points.getD 0 []).map (fun v => absLtVal v radius))
        ((pc.points.getD 1 []).map (fun v => absLtVal v radius))).getD j false =
        !(absLtVal ((pc.points.getD 0 []).getD j Val.nanV) radius &&
          absLtVal ((pc.points.getD 1 []).getD j Val.nanV) radius) := by
      rw [getD_zipWith_in _ _ _ j false false false
        (by rw [List.length_map, hrow0]; exact hjn)
        (by rw [List.length_map, hrow1]; exact hjn)]
      rw [getD_map_in _ _ _ Val.nanV _ (by rw [hrow0]; exact hjn),
        getD_map_in _ _ _ Val.nanV _ (by rw [hrow1]; exact hjn)]
    rw [hmj]
  · simp [PointCloud.remove_close, removeCloseM, maskSelect, habs1]
  · simp [PointCloud.remove_close, removeCloseM, maskSelect, habs2]

/-- Witness for `remove_close_gate` at radius 1 on a concrete 4×2 matrix. -/
theorem remove_close_gate_witness :
    (([[Val.finV 0, Val.finV 3], [Val.finV 0, Val.finV 0], [Val.finV 5, Val.finV 5],
        [Val.finV 7, Val.finV 8]] : List (List Val)).length = 4) ∧
    ((PointCloud.remove_close ⟨[[Val.finV 0, Val.finV 3], [Val.finV 0, Val.finV 0],
        [Val.finV 5, Val.finV 5], [Val.finV 7, Val.finV 8]]⟩ 1).points.length = 4) := by
  refine ⟨by decide, ?_⟩
  have h := remove_close_gate ⟨[[Val.finV 0, Val.finV 3], [Val.finV 0, Val.finV 0],
    [Val.finV 5, Val.finV 5], [Val.finV 7, Val.finV 8]]⟩ 1 2 (by decide)
    (by decide) (by decide)
  exact h.1
